import Mathlib

/-!
Shallow embedding of the route-risk selection core of the
Crime-Hotspot-Detection-Safer-Routing frontend.

Sources embedded here:
  * `src/frontend/App.jsx` — `nowIsNight` / `effectiveMode` (lines 34-41),
    `riskScore` (lines 78-87), the route guard of `fetchRoutes` (line 96),
    and the scoring / sorting / selection block of `handleGetRoute`
    (lines 122-153).
  * `src/frontend/components/MapWithSaferRouting.jsx` — `calculateRoute`
    (lines 30-34).

Modelling conventions: JavaScript numbers are modelled as `ℚ` (the code
only compares and subtracts them), counts as `ℕ`, thrown exceptions as
`Except String`, and `null`/`undefined` as `Option`.  The turf library
calls that the code makes are embedded from the behaviour the code relies
on: `turf.lineString` and `turf.polygon` validate their input and throw
on malformed data, and `turf.booleanIntersects` is an opaque pure
predicate, kept as an explicit function parameter `bi` throughout.
`Array.prototype.sort` with a comparator is, per the ECMAScript
specification, a stable sort consistent with the comparator, embedded as
`List.mergeSort` on the Boolean reading of the comparator sign.
-/

deriving instance DecidableEq for Except

/-- A GeoJSON position `[lng, lat]`, modelled as a pair of rationals. -/
abbrev Position : Type := ℚ × ℚ

/-- A GeoJSON geometry object: a `type` tag plus polygon-shaped
coordinates.  Only features whose `type` is the string `"Polygon"` are
ever read by the code; anything else is skipped before its coordinates
are looked at. -/
structure Geometry where
  type : String
  coordinates : List (List Position)
deriving DecidableEq

/-- A GeoJSON feature: the code reads `f.geometry?.type`, so the geometry
may be absent. -/
structure Feature where
  geometry : Option Geometry
deriving DecidableEq

/-- A GeoJSON feature collection (the hotspot dataset `hotspotsGeo`). -/
structure FeatureCollection where
  features : List Feature
deriving DecidableEq

/-- A validated turf LineString geometry. -/
structure LineString where
  coordinates : List Position
deriving DecidableEq

/-- A validated turf Polygon geometry. -/
structure Polygon where
  coordinates : List (List Position)
deriving DecidableEq

/-- Ring validation performed by `turf.polygon`: every linear ring must
have at least 4 positions and its first and last positions must be
equal; the first offending ring throws.  Embeds the loop at the top of
the turf `polygon` helper that `App.jsx` line 83 calls. -/
def checkRings : List (List Position) → Except String Unit
  | [] => Except.ok ()
  | ring :: rest =>
    if ring.length < 4 then
      Except.error "Each LinearRing of a Polygon must have 4 or more Positions."
    else if ring.head? ≠ ring.getLast? then
      Except.error "First and last Position are not equivalent."
    else checkRings rest

/-- Embeds `turf.polygon(coordinates)` (App.jsx line 83): validates the
rings and returns the polygon, or throws. -/
def turfPolygon (coordinates : List (List Position)) : Except String Polygon :=
  match checkRings coordinates with
  | Except.error e => Except.error e
  | Except.ok _ => Except.ok ⟨coordinates⟩

/-- Embeds `turf.lineString(coordinates)` (App.jsx line 123): throws
unless there are at least two positions. -/
def turfLineString (coordinates : List Position) : Except String LineString :=
  if coordinates.length < 2 then
    Except.error "coordinates must be an array of two or more positions"
  else Except.ok ⟨coordinates⟩

/-- Loop body of `riskScore` (App.jsx lines 81-85): skip features whose
geometry type is not `"Polygon"`, build a turf polygon from the rest
(which may throw), and add 1 to the accumulator whenever the
intersection predicate `bi` holds. -/
def riskLoop (bi : LineString → Polygon → Bool) (line : LineString) :
    List Feature → Nat → Except String Nat
  | [], score => Except.ok score
  | f :: rest, score =>
    match f.geometry with
    | none => riskLoop bi line rest score
    | some g =>
      if g.type == "Polygon" then
        match turfPolygon g.coordinates with
        | Except.error e => Except.error e
        | Except.ok poly =>
          riskLoop bi line rest (if bi line poly then score + 1 else score)
      else riskLoop bi line rest score

/-- Embeds `riskScore(routeGeoJsonLine, hotspotFC)` (App.jsx lines
78-87): returns 0 when the collection is absent or has no features,
otherwise counts the intersected polygon features.  `bi` stands for
`turf.booleanIntersects`. -/
def riskScore (bi : LineString → Polygon → Bool) (line : LineString)
    (hotspotFC : Option FeatureCollection) : Except String Nat :=
  match hotspotFC with
  | none => Except.ok 0
  | some fc =>
    if fc.features.length = 0 then Except.ok 0
    else riskLoop bi line fc.features 0

/-- Specification-side counting predicate: a feature is a hit when it is
a `"Polygon"`-typed feature whose rings validate and whose polygon the
intersection predicate `bi` reports as intersecting the line. -/
def featureHit (bi : LineString → Polygon → Bool) (line : LineString)
    (f : Feature) : Bool :=
  match f.geometry with
  | none => false
  | some g =>
    g.type == "Polygon" &&
      (match turfPolygon g.coordinates with
       | Except.error _ => false
       | Except.ok poly => bi line poly)

/-- Specification-side intersection count: the number of hotspot
polygons the line intersects, over an optional collection. -/
def intersectionCount (bi : LineString → Polygon → Bool) (line : LineString) :
    Option FeatureCollection → Nat
  | none => 0
  | some fc => fc.features.countP (featureHit bi line)

/-- Well-formedness of one hotspot feature: either it is not a
`"Polygon"`-typed feature (the code skips it), or its rings validate. -/
def wfFeature (f : Feature) : Bool :=
  match f.geometry with
  | none => true
  | some g => g.type != "Polygon" || (checkRings g.coordinates).isOk

/-- Well-formedness of the optional hotspot collection: every feature is
well-formed in the sense of `wfFeature`. -/
def wfHotspots : Option FeatureCollection → Bool
  | none => true
  | some fc => fc.features.all wfFeature

/-- Embeds `nowIsNight` (App.jsx lines 34-37) applied to a wall-clock
hour: night means hour ≥ 21 or hour ≤ 4. -/
def nowIsNight (h : Nat) : Bool :=
  decide (21 ≤ h) || decide (h ≤ 4)

/-- Embeds `effectiveMode` (App.jsx lines 38-41) as a pure function of
the wall-clock hour and the `timeMode` override string: an explicit
`"day"` or `"night"` wins, anything else falls through to `nowIsNight`. -/
def effectiveMode (h : Nat) (timeMode : String) : String :=
  if timeMode == "day" || timeMode == "night" then timeMode
  else if nowIsNight h then "night" else "day"

/-- One OSRM candidate route, as consumed by `handleGetRoute`: the
fields of `r` that the code reads are `r.geometry.coordinates`,
`r.distance` (meters) and `r.duration` (seconds). -/
structure CandidateRoute where
  coordinates : List Position
  distance : ℚ
  duration : ℚ
deriving DecidableEq

/-- One scored route, the object literal built at App.jsx lines 124-130:
`{ route, line, risk, distance, duration }`. -/
structure ScoredRoute where
  route : CandidateRoute
  line : LineString
  risk : Nat
  distance : ℚ
  duration : ℚ
deriving DecidableEq

/-- Boolean reading of the sort comparator at App.jsx lines 133-136:
`routeLe a b` holds exactly when the comparator returns a value ≤ 0 on
`(a, b)`, i.e. when the comparator does not require `a` after `b`.  When
the risks differ the comparator returns `a.risk - b.risk`; on a risk tie
it returns `b.distance - a.distance`. -/
def routeLe (a b : ScoredRoute) : Bool :=
  if a.risk ≠ b.risk then decide ((a.risk : Int) - (b.risk : Int) ≤ 0)
  else decide (b.distance - a.distance ≤ 0)

/-- Embeds `scored.sort(comparator)` (App.jsx lines 133-136): a stable
sort consistent with the comparator, as the ECMAScript specification
requires of `Array.prototype.sort`. -/
def rank (l : List ScoredRoute) : List ScoredRoute :=
  l.mergeSort routeLe

/-- The strict selection order of the specification: ascending risk,
and on a risk tie descending distance (the longer route first). -/
def rankedBefore (a b : ScoredRoute) : Prop :=
  a.risk < b.risk ∨ (a.risk = b.risk ∧ b.distance ≤ a.distance)

/-- Embeds `Math.max(...ns)` on a list of naturals (App.jsx line 153);
the empty case (JavaScript `-Infinity`) is never reached because the
candidate list is non-empty there. -/
def jsMax : List Nat → Nat
  | [] => 0
  | x :: xs => xs.foldl max x

/-- Error taxonomy of the selection pipeline: the empty-candidate guard
of `fetchRoutes` (App.jsx line 96), and exceptions thrown by the turf
constructors during scoring. -/
inductive SelectError where
  | emptyCandidateSet
  | turfError (msg : String)
deriving DecidableEq

/-- The selection result assembled by `handleGetRoute`: the winning
route `scored[0]`, the full ranked list, and the maximum observed risk
`Math.max(...scored.map(s => s.risk))` (App.jsx lines 138, 150-153). -/
structure SelectionResult where
  winner : ScoredRoute
  allScored : List ScoredRoute
  maxRiskObserved : Nat
deriving DecidableEq

/-- Scoring of one candidate route, the callback of `routes.map` at
App.jsx lines 122-131: build the turf line (may throw), compute the risk
(may throw), and assemble the scored-route object. -/
def scoreRoute (bi : LineString → Polygon → Bool)
    (hotspots : Option FeatureCollection) (r : CandidateRoute) :
    Except String ScoredRoute :=
  match turfLineString r.coordinates with
  | Except.error e => Except.error e
  | Except.ok ls =>
    match riskScore bi ls hotspots with
    | Except.error e => Except.error e
    | Except.ok risk => Except.ok ⟨r, ls, risk, r.distance, r.duration⟩

/-- Embeds `routes.map(scoreRoute)` with JavaScript exception
propagation: the first throw aborts the whole map. -/
def scoreAll (bi : LineString → Polygon → Bool)
    (hotspots : Option FeatureCollection) :
    List CandidateRoute → Except String (List ScoredRoute)
  | [] => Except.ok []
  | r :: rest =>
    match scoreRoute bi hotspots r with
    | Except.error e => Except.error e
    | Except.ok s =>
      match scoreAll bi hotspots rest with
      | Except.error e => Except.error e
      | Except.ok ss => Except.ok (s :: ss)

/-- The route selection pipeline of the specification, embedded from the
code path `fetchRoutes` guard (App.jsx line 96, empty candidate set
throws) followed by the scoring, sorting and selection block of
`handleGetRoute` (App.jsx lines 122-153). -/
def select (bi : LineString → Polygon → Bool)
    (candidates : List CandidateRoute)
    (hotspots : Option FeatureCollection) :
    Except SelectError SelectionResult :=
  if candidates.isEmpty then Except.error SelectError.emptyCandidateSet
  else
    match scoreAll bi hotspots candidates with
    | Except.error e => Except.error (SelectError.turfError e)
    | Except.ok scored =>
      match rank scored with
      | [] => Except.error SelectError.emptyCandidateSet
      | best :: rest =>
        Except.ok ⟨best, best :: rest, jsMax ((best :: rest).map (·.risk))⟩

/-- Well-formedness of a candidate route per the data model: its line
has at least two positions (so `turf.lineString` accepts it). -/
def wfRoute (r : CandidateRoute) : Bool :=
  decide (2 ≤ r.coordinates.length)

/-- The scored route produced for a well-formed candidate: the line is
the coordinates verbatim and the risk is the intersection count. -/
def scoreRouteWf (bi : LineString → Polygon → Bool)
    (hotspots : Option FeatureCollection) (r : CandidateRoute) : ScoredRoute :=
  ⟨r, ⟨r.coordinates⟩, intersectionCount bi ⟨r.coordinates⟩ hotspots,
    r.distance, r.duration⟩

/-- A latitude/longitude pair as used by `MapWithSaferRouting.jsx`. -/
abbrev LatLng : Type := ℚ × ℚ

/-- Embeds `calculateRoute` (MapWithSaferRouting.jsx lines 30-34):
returns the empty list when origin or destination is unset (JavaScript
`null`, falsy), otherwise the two-point straight line. -/
def calculateRoute (origin destination : Option LatLng) : List LatLng :=
  match origin, destination with
  | some o, some d => [o, d]
  | _, _ => []

/-- A sample route line for concrete evaluations. -/
def sampleLine : LineString := ⟨[(0, 0), (1, 1)]⟩

/-- A sample well-formed Polygon-typed feature (closed 4-position ring). -/
def samplePolyFeature : Feature :=
  ⟨some ⟨"Polygon", [[(0, 0), (4, 0), (4, 4), (0, 0)]]⟩⟩

/-- A second sample well-formed Polygon-typed feature. -/
def samplePolyFeature2 : Feature :=
  ⟨some ⟨"Polygon", [[(5, 5), (9, 5), (9, 9), (5, 5)]]⟩⟩

/-- A sample feature whose geometry type is not Polygon. -/
def samplePointFeature : Feature := ⟨some ⟨"Point", []⟩⟩

/-- A Polygon-typed feature whose single ring is not closed. -/
def badRingFeature : Feature :=
  ⟨some ⟨"Polygon", [[(0, 0), (4, 0), (4, 4), (1, 2)]]⟩⟩

/-- A sample collection: two valid polygons and one non-Polygon entry. -/
def sampleFC : FeatureCollection :=
  ⟨[samplePolyFeature, samplePointFeature, samplePolyFeature2]⟩

/-- An intersection predicate that always reports an intersection. -/
def alwaysIntersects : LineString → Polygon → Bool := fun _ _ => true

/-- An intersection predicate that never reports an intersection. -/
def neverIntersects : LineString → Polygon → Bool := fun _ _ => false

/-- A sample candidate route of distance 5. -/
def routeA : CandidateRoute := ⟨[(0, 0), (1, 1)], 5, 3⟩

/-- A sample candidate route of distance 7. -/
def routeB : CandidateRoute := ⟨[(0, 0), (3, 3)], 7, 2⟩

theorem riskLoop_ok (bi : LineString → Polygon → Bool) (line : LineString)
    (fs : List Feature) :
    ∀ (s t : Nat), riskLoop bi line fs s = Except.ok t →
      t = s + fs.countP (featureHit bi line) := by
  induction fs with
  | nil =>
    intro s t h
    simp only [riskLoop, Except.ok.injEq] at h
    simp [h]
  | cons f fs ih =>
    intro s t h
    cases hg : f.geometry with
    | none =>
      simp only [riskLoop, hg] at h
      have := ih s t h
      simp [List.countP_cons, featureHit, hg, this]
    | some g =>
      simp only [riskLoop, hg] at h
      cases ht : g.type == "Polygon" with
      | false =>
        simp only [ht, Bool.false_eq_true, if_false] at h
        have := ih s t h
        simp [List.countP_cons, featureHit, hg, ht, this]
      | true =>
        simp only [ht, if_true] at h
        cases hp : turfPolygon g.coordinates with
        | error e => simp [hp] at h
        | ok poly =>
          simp only [hp] at h
          have := ih _ t h
          cases hb : bi line poly with
          | false =>
            simp only [hb, Bool.false_eq_true, if_false] at this
            simp [List.countP_cons, featureHit, hg, ht, hp, hb, this]
          | true =>
            simp only [hb, if_true] at this
            simp [List.countP_cons, featureHit, hg, ht, hp, hb, this]
            try omega

theorem riskScore_count (bi : LineString → Polygon → Bool) (line : LineString)
    (hfc : Option FeatureCollection) (s : Nat)
    (h : riskScore bi line hfc = Except.ok s) :
    s = intersectionCount bi line hfc := by
  cases hfc with
  | none =>
    simp only [riskScore, Except.ok.injEq] at h
    simp [intersectionCount, h]
  | some fc =>
    simp only [riskScore] at h
    by_cases hl : fc.features.length = 0
    · have hnil : fc.features = [] := List.length_eq_zero.mp hl
      simp only [hl, if_true, Except.ok.injEq] at h
      simp [intersectionCount, hnil, h]
    · simp only [hl, if_false] at h
      have := riskLoop_ok bi line fc.features 0 s h
      simpa [intersectionCount] using this

theorem riskLoop_isOk (bi : LineString → Polygon → Bool) (line : LineString)
    (fs : List Feature) :
    ∀ (s : Nat), (riskLoop bi line fs s).isOk = fs.all wfFeature := by
  induction fs with
  | nil => intro s; simp [riskLoop, Except.isOk, Except.toBool]
  | cons f fs ih =>
    intro s
    cases hg : f.geometry with
    | none =>
      simp only [riskLoop, hg]
      rw [ih, List.all_cons]
      have hwf : wfFeature f = true := by simp [wfFeature, hg]
      rw [hwf, Bool.true_and]
    | some g =>
      simp only [riskLoop, hg]
      cases ht : g.type == "Polygon" with
      | false =>
        simp only [ht, Bool.false_eq_true, if_false]
        have htne : (g.type != "Polygon") = true := by
          simp [bne, ht]
        rw [ih, List.all_cons]
        have hwf : wfFeature f = true := by simp [wfFeature, hg, htne]
        rw [hwf, Bool.true_and]
      | true =>
        simp only [ht, if_true]
        have htne : (g.type != "Polygon") = false := by
          simp [bne, ht]
        cases hp : checkRings g.coordinates with
        | error e =>
          have hpoly : turfPolygon g.coordinates = Except.error e := by
            simp [turfPolygon, hp]
          simp only [hpoly]
          have hwf : wfFeature f = false := by
            simp [wfFeature, hg, htne, hp, Except.isOk, Except.toBool]
          rw [List.all_cons, hwf, Bool.false_and]
          simp [Except.isOk, Except.toBool]
        | ok u =>
          have hpoly : turfPolygon g.coordinates = Except.ok ⟨g.coordinates⟩ := by
            simp [turfPolygon, hp]
          simp only [hpoly]
          rw [ih, List.all_cons]
          have hwf : wfFeature f = true := by
            simp [wfFeature, hg, hp, Except.isOk, Except.toBool]
          rw [hwf, Bool.true_and]

theorem riskScore_isOk (bi : LineString → Polygon → Bool) (line : LineString)
    (fc : FeatureCollection) :
    (riskScore bi line (some fc)).isOk = fc.features.all wfFeature := by
  simp only [riskScore]
  by_cases hl : fc.features.length = 0
  · have hnil : fc.features = [] := List.length_eq_zero.mp hl
    simp [hl, hnil, Except.isOk, Except.toBool]
  · simp [hl, riskLoop_isOk]

theorem riskScore_of_wf (bi : LineString → Polygon → Bool) (line : LineString)
    (hfc : Option FeatureCollection) (h : wfHotspots hfc = true) :
    riskScore bi line hfc = Except.ok (intersectionCount bi line hfc) := by
  cases hfc with
  | none => simp [riskScore, intersectionCount]
  | some fc =>
    have hok : (riskScore bi line (some fc)).isOk = true := by
      rw [riskScore_isOk]
      simpa [wfHotspots] using h
    cases hr : riskScore bi line (some fc) with
    | error e => rw [hr] at hok; simp [Except.isOk, Except.toBool] at hok
    | ok s =>
      have hs := riskScore_count bi line (some fc) s hr
      rw [hs]

theorem routeLe_iff (a b : ScoredRoute) :
    routeLe a b = true ↔ rankedBefore a b := by
  unfold routeLe rankedBefore
  by_cases h : a.risk = b.risk
  · rw [if_neg (not_not_intro h), decide_eq_true_iff, sub_nonpos]
    constructor
    · intro hd
      exact Or.inr ⟨h, hd⟩
    · rintro (hlt | ⟨_, hd⟩)
      · exact absurd h hlt.ne
      · exact hd
  · rw [if_pos h, decide_eq_true_iff]
    constructor
    · intro hle
      exact Or.inl (by omega)
    · rintro (hlt | ⟨heq, _⟩)
      · omega
      · exact absurd heq h

theorem rankedBefore_trans {a b c : ScoredRoute}
    (h1 : rankedBefore a b) (h2 : rankedBefore b c) : rankedBefore a c := by
  rcases h1 with h1 | ⟨e1, d1⟩ <;> rcases h2 with h2 | ⟨e2, d2⟩
  · exact Or.inl (h1.trans h2)
  · exact Or.inl (e2 ▸ h1)
  · exact Or.inl (e1.symm ▸ h2)
  · exact Or.inr ⟨e1.trans e2, d2.trans d1⟩

theorem routeLe_trans (a b c : ScoredRoute)
    (h1 : routeLe a b) (h2 : routeLe b c) : routeLe a c := by
  rw [routeLe_iff] at *
  exact rankedBefore_trans h1 h2

theorem routeLe_total (a b : ScoredRoute) : routeLe a b || routeLe b a := by
  rw [Bool.or_eq_true, routeLe_iff, routeLe_iff]
  unfold rankedBefore
  rcases Nat.lt_trichotomy a.risk b.risk with h | h | h
  · exact Or.inl (Or.inl h)
  · rcases le_total b.distance a.distance with hd | hd
    · exact Or.inl (Or.inr ⟨h, hd⟩)
    · exact Or.inr (Or.inr ⟨h.symm, hd⟩)
  · exact Or.inr (Or.inl h)

theorem rank_perm (l : List ScoredRoute) : (rank l).Perm l :=
  List.mergeSort_perm l routeLe

theorem rank_pairwise (l : List ScoredRoute) :
    (rank l).Pairwise rankedBefore := by
  have h := List.sorted_mergeSort routeLe_trans routeLe_total l
  exact h.imp fun hab => (routeLe_iff _ _).mp hab

theorem rank_filter (l : List ScoredRoute) (p : ScoredRoute → Bool)
    (hp : ∀ a b, p a = true → p b = true → routeLe a b = true) :
    (rank l).filter p = l.filter p := by
  have hsub : (l.filter p).Sublist l := List.filter_sublist l
  have hpair : (l.filter p).Pairwise (fun a b => routeLe a b = true) := by
    apply List.pairwise_of_forall_mem_list
    intro a ha b hb
    exact hp a b (List.of_mem_filter ha) (List.of_mem_filter hb)
  have h1 : (l.filter p).Sublist (rank l) :=
    List.sublist_mergeSort routeLe_trans routeLe_total hpair hsub
  have hff : (l.filter p).filter p = l.filter p :=
    List.filter_eq_self.mpr fun a ha => List.of_mem_filter ha
  have h2 : (l.filter p).Sublist ((rank l).filter p) := by
    have := h1.filter p
    rwa [hff] at this
  have hlen : ((rank l).filter p).length = (l.filter p).length :=
    ((rank_perm l).filter p).length_eq
  exact (h2.eq_of_length hlen.symm).symm

theorem le_foldl_max (l : List Nat) : ∀ a : Nat, a ≤ l.foldl max a := by
  induction l with
  | nil => intro a; simp
  | cons x xs ih =>
    intro a
    simp only [List.foldl_cons]
    exact le_trans (Nat.le_max_left a x) (ih _)

theorem mem_le_foldl_max (l : List Nat) :
    ∀ (a b : Nat), b ∈ l → b ≤ l.foldl max a := by
  induction l with
  | nil => intro a b h; cases h
  | cons x xs ih =>
    intro a b h
    simp only [List.foldl_cons]
    rcases List.mem_cons.mp h with rfl | h
    · exact le_trans (Nat.le_max_right a b) (le_foldl_max xs _)
    · exact ih _ b h

theorem foldl_max_mem (l : List Nat) :
    ∀ a : Nat, l.foldl max a = a ∨ l.foldl max a ∈ l := by
  induction l with
  | nil => intro a; exact Or.inl rfl
  | cons x xs ih =>
    intro a
    simp only [List.foldl_cons]
    rcases ih (max a x) with h | h
    · rcases Nat.le_total a x with h2 | h2
      · exact Or.inr (by rw [h, Nat.max_eq_right h2]; exact List.mem_cons_self x xs)
      · exact Or.inl (h.trans (Nat.max_eq_left h2))
    · exact Or.inr (List.mem_cons_of_mem x h)

theorem jsMax_is_max (ns : List Nat) (hne : ns ≠ []) :
    (∀ b ∈ ns, b ≤ jsMax ns) ∧ jsMax ns ∈ ns := by
  cases ns with
  | nil => exact absurd rfl hne
  | cons x xs =>
    refine ⟨?_, ?_⟩
    · intro b hb
      rcases List.mem_cons.mp hb with rfl | hb
      · exact le_foldl_max xs b
      · exact mem_le_foldl_max xs x b hb
    · rcases foldl_max_mem xs x with h | h
      · rw [jsMax, h]; exact List.mem_cons_self x xs
      · rw [jsMax]; exact List.mem_cons_of_mem x h

theorem scoreRoute_of_wf (bi : LineString → Polygon → Bool)
    (hs : Option FeatureCollection) (r : CandidateRoute)
    (h1 : wfRoute r = true) (h2 : wfHotspots hs = true) :
    scoreRoute bi hs r = Except.ok (scoreRouteWf bi hs r) := by
  unfold scoreRoute
  have hlen : ¬ (r.coordinates.length < 2) := by
    simp only [wfRoute, decide_eq_true_eq] at h1
    omega
  have hls : turfLineString r.coordinates = Except.ok ⟨r.coordinates⟩ := by
    simp [turfLineString, hlen]
  simp only [hls, riskScore_of_wf bi ⟨r.coordinates⟩ hs h2]
  rfl

theorem scoreAll_of_wf (bi : LineString → Polygon → Bool)
    (hs : Option FeatureCollection) (cands : List CandidateRoute)
    (h1 : cands.all wfRoute = true) (h2 : wfHotspots hs = true) :
    scoreAll bi hs cands = Except.ok (cands.map (scoreRouteWf bi hs)) := by
  induction cands with
  | nil => rfl
  | cons r rest ih =>
    rw [List.all_cons, Bool.and_eq_true] at h1
    simp only [scoreAll, scoreRoute_of_wf bi hs r h1.1 h2, ih h1.2, List.map_cons]

theorem select_spec (bi : LineString → Polygon → Bool)
    (cands : List CandidateRoute) (hs : Option FeatureCollection)
    (hne : cands ≠ []) (h1 : cands.all wfRoute = true)
    (h2 : wfHotspots hs = true) :
    ∃ best rest,
      rank (cands.map (scoreRouteWf bi hs)) = best :: rest ∧
      select bi cands hs =
        Except.ok ⟨best, best :: rest, jsMax ((best :: rest).map (·.risk))⟩ := by
  have hni : cands.isEmpty = false := by
    cases cands with
    | nil => exact absurd rfl hne
    | cons a l => rfl
  have hrank_ne : rank (cands.map (scoreRouteWf bi hs)) ≠ [] := by
    intro hcon
    have hp := rank_perm (cands.map (scoreRouteWf bi hs))
    rw [hcon] at hp
    have hmap : cands.map (scoreRouteWf bi hs) = [] := (List.perm_nil.mp hp.symm)
    exact hne (List.map_eq_nil_iff.mp hmap)
  obtain ⟨best, rest, hbr⟩ := List.exists_cons_of_ne_nil hrank_ne
  refine ⟨best, rest, hbr, ?_⟩
  unfold select
  rw [hni]
  simp only [Bool.false_eq_true, if_false, scoreAll_of_wf bi hs cands h1 h2, hbr]

/-- C2: whenever the scorer returns a risk score for a route line and a
hotspot collection, that score equals the exact number of polygons in
the collection for which the intersection predicate returns true, each
intersecting polygon counted exactly once. -/
theorem riskScore_eq_intersectionCount (bi : LineString → Polygon → Bool)
    (line : LineString) (hfc : Option FeatureCollection) (s : Nat)
    (h : riskScore bi line hfc = Except.ok s) :
    s = intersectionCount bi line hfc :=
  riskScore_count bi line hfc s h

/-- Witness for C2: a collection with two valid intersecting polygons
and one non-Polygon entry scores exactly 2. -/
theorem riskScore_eq_intersectionCount_witness :
    riskScore alwaysIntersects sampleLine (some sampleFC) = Except.ok 2 ∧
    2 = intersectionCount alwaysIntersects sampleLine (some sampleFC) :=
  ⟨by decide,
    riskScore_eq_intersectionCount alwaysIntersects sampleLine (some sampleFC) 2
      (by decide)⟩

/-- C3: with an empty candidate sequence, selection fails with the
EmptyCandidateSet error for every hotspot collection and every
intersection predicate; no winner or partial result is produced. -/
theorem select_nil_emptyCandidateSet (bi : LineString → Polygon → Bool)
    (hs : Option FeatureCollection) :
    select bi [] hs = Except.error SelectError.emptyCandidateSet := rfl

/-- C7: ranking is a stable sort: the routes carrying any fixed risk and
distance key appear in the ranked output in exactly their input order. -/
theorem rank_stable (l : List ScoredRoute) (rk : Nat) (d : ℚ) :
    (rank l).filter (fun s => s.risk == rk && s.distance == d) =
      l.filter (fun s => s.risk == rk && s.distance == d) := by
  apply rank_filter
  intro a b ha hb
  rw [Bool.and_eq_true, beq_iff_eq, beq_iff_eq] at ha hb
  rw [routeLe_iff]
  exact Or.inr ⟨ha.1.trans hb.1.symm, le_of_eq (hb.2.trans ha.2.symm)⟩

/-- C9: the effective time mode is a pure function of the wall-clock
hour and the override: an explicit day or night override wins regardless
of the hour, and in auto mode the result is night exactly for hours
h ≥ 21 or h ≤ 4, and day otherwise. -/
theorem effectiveMode_spec (h : Nat) :
    effectiveMode h "day" = "day" ∧
    effectiveMode h "night" = "night" ∧
    (effectiveMode h "auto" = "night" ↔ (21 ≤ h ∨ h ≤ 4)) ∧
    (effectiveMode h "auto" = "day" ↔ ¬(21 ≤ h ∨ h ≤ 4)) := by
  have hauto : effectiveMode h "auto" = if nowIsNight h then "night" else "day" := rfl
  have hnight : nowIsNight h = true ↔ (21 ≤ h ∨ h ≤ 4) := by
    rw [nowIsNight, Bool.or_eq_true, decide_eq_true_iff, decide_eq_true_iff]
  refine ⟨rfl, rfl, ?_, ?_⟩
  · rw [hauto]
    by_cases hb : 21 ≤ h ∨ h ≤ 4
    · rw [if_pos (hnight.mpr hb)]
      simp [hb]
    · have hf : nowIsNight h = false := by
        cases hcase : nowIsNight h
        · rfl
        · exact absurd (hnight.mp hcase) hb
      rw [hf]
      simp [hb]
  · rw [hauto]
    by_cases hb : 21 ≤ h ∨ h ≤ 4
    · rw [if_pos (hnight.mpr hb)]
      simp [hb]
    · have hf : nowIsNight h = false := by
        cases hcase : nowIsNight h
        · rfl
        · exact absurd (hnight.mp hcase) hb
      rw [hf]
      simp [hb]

/-- C10: the second route entry point returns the empty list whenever
origin or destination is unset, and otherwise exactly the two-point
straight line from origin to destination; it takes no hotspot input and
performs no scoring or ranking. -/
theorem calculateRoute_spec (o d : LatLng) (mo md : Option LatLng) :
    calculateRoute none md = [] ∧
    calculateRoute mo none = [] ∧
    calculateRoute (some o) (some d) = [o, d] := by
  refine ⟨?_, ?_, rfl⟩
  · cases md <;> rfl
  · cases mo <;> rfl

/-- C5 counterexample: a collection whose only entry is Polygon-typed
with a non-closed ring makes the scorer raise (the turf polygon
constructor throws) instead of skipping the malformed entry. -/
theorem riskScore_raises_on_bad_ring :
    riskScore alwaysIntersects sampleLine (some ⟨[badRingFeature]⟩) =
      Except.error "First and last Position are not equivalent." := by
  decide

/-- C5 amended: scoring silently skips only entries whose geometry type
is not Polygon; it completes exactly when every Polygon-typed entry has
valid closed rings, and in that case the returned score is the
intersection count over those polygons.  A Polygon-typed entry with an
invalid ring aborts scoring for the whole call. -/
theorem riskScore_skips_only_nonPolygon (bi : LineString → Polygon → Bool)
    (line : LineString) (fc : FeatureCollection) :
    ((riskScore bi line (some fc)).isOk = fc.features.all wfFeature) ∧
    (∀ s, riskScore bi line (some fc) = Except.ok s →
      s = intersectionCount bi line (some fc)) :=
  ⟨riskScore_isOk bi line fc,
    fun s h => riskScore_count bi line (some fc) s h⟩

/-- Witness for C5 amended: on the sample collection (which contains a
skipped non-Polygon entry) scoring completes with score 2. -/
theorem riskScore_skips_only_nonPolygon_witness :
    riskScore alwaysIntersects sampleLine (some sampleFC) = Except.ok 2 ∧
    2 = intersectionCount alwaysIntersects sampleLine (some sampleFC) ∧
    (riskScore alwaysIntersects sampleLine (some sampleFC)).isOk =
      sampleFC.features.all wfFeature :=
  ⟨by decide,
    (riskScore_skips_only_nonPolygon alwaysIntersects sampleLine sampleFC).2 2
      (by decide),
    (riskScore_skips_only_nonPolygon alwaysIntersects sampleLine sampleFC).1⟩

/-- C1: for every sequence of scored routes the ranking orders them by
ascending risk, breaking risk ties by descending distance (the longer
route first), and for every selection the ranked output is that order
and the winner is its first element. -/
theorem ranking_sorted_winner_first (l : List ScoredRoute)
    (bi : LineString → Polygon → Bool) (cands : List CandidateRoute)
    (hs : Option FeatureCollection) (hne : cands ≠ [])
    (h1 : cands.all wfRoute = true) (h2 : wfHotspots hs = true) :
    (rank l).Pairwise rankedBefore ∧
    ∃ res, select bi cands hs = Except.ok res ∧
      res.allScored = rank (cands.map (scoreRouteWf bi hs)) ∧
      res.allScored.Pairwise rankedBefore ∧
      res.allScored.head? = some res.winner := by
  refine ⟨rank_pairwise l, ?_⟩
  obtain ⟨best, rest, hbr, hsel⟩ := select_spec bi cands hs hne h1 h2
  refine ⟨_, hsel, hbr.symm, ?_, rfl⟩
  show (best :: rest).Pairwise rankedBefore
  rw [← hbr]
  exact rank_pairwise _

/-- Witness for C1 at a concrete one-candidate selection with no
hotspot data. -/
theorem ranking_sorted_winner_first_witness :
    ([routeA] ≠ ([] : List CandidateRoute)) ∧
    ([routeA].all wfRoute = true) ∧
    (wfHotspots none = true) ∧
    ((rank []).Pairwise rankedBefore ∧
     ∃ res, select neverIntersects [routeA] none = Except.ok res ∧
       res.allScored = rank ([routeA].map (scoreRouteWf neverIntersects none)) ∧
       res.allScored.Pairwise rankedBefore ∧
       res.allScored.head? = some res.winner) :=
  ⟨by decide, by decide, by decide,
    ranking_sorted_winner_first [] neverIntersects [routeA] none
      (by decide) (by decide) (by decide)⟩

/-- C4: for every non-empty candidate set, when the hotspot collection
is absent or empty every route scores risk 0, and the winner is a
candidate of maximal distance (the tie-break alone decides). -/
theorem select_no_hotspots (bi : LineString → Polygon → Bool)
    (cands : List CandidateRoute) (hs : Option FeatureCollection)
    (hne : cands ≠ []) (h1 : cands.all wfRoute = true)
    (hempty : hs = none ∨ hs = some ⟨[]⟩) :
    ∃ res, select bi cands hs = Except.ok res ∧
      (∀ s ∈ res.allScored, s.risk = 0) ∧
      res.winner.route ∈ cands ∧
      res.winner.distance = res.winner.route.distance ∧
      ∀ r ∈ cands, r.distance ≤ res.winner.distance := by
  have h2 : wfHotspots hs = true := by
    rcases hempty with rfl | rfl <;> rfl
  obtain ⟨best, rest, hbr, hsel⟩ := select_spec bi cands hs hne h1 h2
  have hcount : ∀ line, intersectionCount bi line hs = 0 := by
    intro line
    rcases hempty with rfl | rfl <;> rfl
  have hmemscored : ∀ s, s ∈ best :: rest →
      ∃ r ∈ cands, scoreRouteWf bi hs r = s := by
    intro s hsmem
    rw [← hbr] at hsmem
    exact List.mem_map.mp ((rank_perm _).mem_iff.mp hsmem)
  have hall : ∀ s ∈ (best :: rest), s.risk = 0 := by
    intro s hsmem
    obtain ⟨r, hr, hrs⟩ := hmemscored s hsmem
    rw [← hrs]
    exact hcount _
  have hpw : (best :: rest).Pairwise rankedBefore := by
    rw [← hbr]
    exact rank_pairwise _
  obtain ⟨rb, hrb, hrbs⟩ := hmemscored best (List.mem_cons_self _ _)
  refine ⟨_, hsel, hall, ?_, ?_, ?_⟩
  · show best.route ∈ cands
    rw [← hrbs]
    exact hrb
  · show best.distance = best.route.distance
    rw [← hrbs]
    rfl
  · show ∀ r ∈ cands, r.distance ≤ best.distance
    intro r hr
    have hmem : scoreRouteWf bi hs r ∈ best :: rest := by
      rw [← hbr]
      exact (rank_perm _).mem_iff.mpr (List.mem_map_of_mem _ hr)
    rcases List.mem_cons.mp hmem with heq | hmem2
    · exact le_of_eq (congrArg ScoredRoute.distance heq)
    · have hrb2 := (List.pairwise_cons.mp hpw).1 _ hmem2
      rcases hrb2 with hlt | ⟨_, hd⟩
      · have h0b : best.risk = 0 := hall best (List.mem_cons_self _ _)
        have h0s : (scoreRouteWf bi hs r).risk = 0 := hall _ hmem
        omega
      · exact hd

/-- Witness for C4 at a concrete two-candidate selection with absent
hotspot data. -/
theorem select_no_hotspots_witness :
    ([routeA, routeB] ≠ ([] : List CandidateRoute)) ∧
    ([routeA, routeB].all wfRoute = true) ∧
    ((none : Option FeatureCollection) = none ∨
      (none : Option FeatureCollection) = some ⟨[]⟩) ∧
    (∃ res, select alwaysIntersects [routeA, routeB] none = Except.ok res ∧
      (∀ s ∈ res.allScored, s.risk = 0) ∧
      res.winner.route ∈ [routeA, routeB] ∧
      res.winner.distance = res.winner.route.distance ∧
      ∀ r ∈ [routeA, routeB], r.distance ≤ res.winner.distance) :=
  ⟨by decide, by decide, Or.inl rfl,
    select_no_hotspots alwaysIntersects [routeA, routeB] none
      (by decide) (by decide) (Or.inl rfl)⟩

/-- C6: for every selection the ranked output is a permutation of the
scored inputs: same length as the candidate list, every scored candidate
contained exactly once, none dropped or duplicated. -/
theorem allScored_perm_of_scored (bi : LineString → Polygon → Bool)
    (cands : List CandidateRoute) (hs : Option FeatureCollection)
    (hne : cands ≠ []) (h1 : cands.all wfRoute = true)
    (h2 : wfHotspots hs = true) :
    ∃ res, select bi cands hs = Except.ok res ∧
      scoreAll bi hs cands = Except.ok (cands.map (scoreRouteWf bi hs)) ∧
      res.allScored.Perm (cands.map (scoreRouteWf bi hs)) ∧
      res.allScored.length = cands.length := by
  obtain ⟨best, rest, hbr, hsel⟩ := select_spec bi cands hs hne h1 h2
  refine ⟨_, hsel, scoreAll_of_wf bi hs cands h1 h2, ?_, ?_⟩
  · show (best :: rest).Perm _
    rw [← hbr]
    exact rank_perm _
  · show (best :: rest).length = _
    rw [← hbr, (rank_perm _).length_eq, List.length_map]

/-- Witness for C6 at a concrete two-candidate selection over the sample
hotspot collection. -/
theorem allScored_perm_of_scored_witness :
    ([routeA, routeB] ≠ ([] : List CandidateRoute)) ∧
    ([routeA, routeB].all wfRoute = true) ∧
    (wfHotspots (some sampleFC) = true) ∧
    (∃ res, select alwaysIntersects [routeA, routeB] (some sampleFC) =
        Except.ok res ∧
      scoreAll alwaysIntersects (some sampleFC) [routeA, routeB] =
        Except.ok ([routeA, routeB].map
          (scoreRouteWf alwaysIntersects (some sampleFC))) ∧
      res.allScored.Perm ([routeA, routeB].map
        (scoreRouteWf alwaysIntersects (some sampleFC))) ∧
      res.allScored.length = [routeA, routeB].length) :=
  ⟨by decide, by decide, by decide,
    allScored_perm_of_scored alwaysIntersects [routeA, routeB] (some sampleFC)
      (by decide) (by decide) (by decide)⟩

/-- C8: for every non-empty candidate set the selection result field
maxRiskObserved equals the maximum of the risk values across all scored
routes. -/
theorem maxRiskObserved_is_max (bi : LineString → Polygon → Bool)
    (cands : List CandidateRoute) (hs : Option FeatureCollection)
    (hne : cands ≠ []) (h1 : cands.all wfRoute = true)
    (h2 : wfHotspots hs = true) :
    ∃ res, select bi cands hs = Except.ok res ∧
      (∀ s ∈ res.allScored, s.risk ≤ res.maxRiskObserved) ∧
      ∃ s ∈ res.allScored, s.risk = res.maxRiskObserved := by
  obtain ⟨best, rest, hbr, hsel⟩ := select_spec bi cands hs hne h1 h2
  refine ⟨_, hsel, ?_, ?_⟩
  · intro s hsmem
    have hmm : s.risk ∈ (best :: rest).map (·.risk) :=
      List.mem_map_of_mem _ hsmem
    exact (jsMax_is_max ((best :: rest).map (·.risk)) (by simp)).1 _ hmm
  · have hmem := (jsMax_is_max ((best :: rest).map (·.risk)) (by simp)).2
    obtain ⟨s, hsm, hse⟩ := List.mem_map.mp hmem
    exact ⟨s, hsm, hse⟩

/-- Witness for C8 at a concrete two-candidate selection over the sample
hotspot collection. -/
theorem maxRiskObserved_is_max_witness :
    ([routeA, routeB] ≠ ([] : List CandidateRoute)) ∧
    ([routeA, routeB].all wfRoute = true) ∧
    (wfHotspots (some sampleFC) = true) ∧
    (∃ res, select alwaysIntersects [routeA, routeB] (some sampleFC) =
        Except.ok res ∧
      (∀ s ∈ res.allScored, s.risk ≤ res.maxRiskObserved) ∧
      ∃ s ∈ res.allScored, s.risk = res.maxRiskObserved) :=
  ⟨by decide, by decide, by decide,
    maxRiskObserved_is_max alwaysIntersects [routeA, routeB] (some sampleFC)
      (by decide) (by decide) (by decide)⟩
